import Mathlib

/-!
Verification of the duq CLI backup/restore subsystem and chain executor.

The definitions below are a shallow embedding of `src/backup-manager.js`
(the `BackupManager` class) and of the `chain` function of `src/commands.js`.
The filesystem and the blob store are modelled as partial maps from paths
(strings) to file contents (strings); `path.resolve` is modelled as the
identity on already-canonical paths; the `crypto` md5 digest of the path is
an arbitrary function parameter `digest`, since no behaviour of the store
depends on the digest's value; wall-clock timestamps (`new Date().toISOString()`)
are explicit inputs.  The `saves` counter counts calls to `saveIndex`
(the synchronous index write to disk).
-/

namespace Duq

/-- One per-file entry of the backup index (`index.files[path]` elements):
`{ id, timestamp, operation }` as pushed by `createBackup`. -/
structure FileEntry where
  id : String
  timestamp : String
  operation : String
deriving DecidableEq

/-- One global-history entry of the backup index (`index.history` elements):
`{ id, filePath, timestamp, operation }` as pushed by `createBackup`. -/
structure HistEntry where
  id : String
  filePath : String
  timestamp : String
  operation : String
deriving DecidableEq

/-- The backup index: `files` maps an absolute path to its ordered backup
list (most-recent-first; a missing key of the JS object is the empty list),
and `history` is the global most-recent-first list. -/
structure Index where
  files : String → List FileEntry
  history : List HistEntry

/-- The whole state touched by the backup manager: the user filesystem `fs`,
the blob store `blobs` (the files under `~/.duq/backups`, keyed by backup id),
the in-memory index, and the count of `saveIndex` calls. -/
structure Sys where
  fs : String → Option String
  blobs : String → Option String
  index : Index
  saves : Nat

/-- `path.resolve`: paths are assumed given in canonical absolute form, so
resolution is the identity. -/
def resolvePath (p : String) : String := p

/-- The backup id: `` `${fileHash}-${timestamp}` `` where `fileHash` is the
md5 digest of the absolute path, kept abstract as `digest`. -/
def backupIdOf (digest : String → String) (absolutePath timestamp : String) : String :=
  digest absolutePath ++ "-" ++ timestamp

/-- Deleting the blob files of evicted entries (`toRemove.forEach(fs.removeSync ...)`). -/
def removeBlobs (blobs : String → Option String) (toRemove : List FileEntry) :
    String → Option String :=
  toRemove.foldl (fun bl e => fun k => if k = e.id then none else bl k) blobs

/-- `BackupManager.createBackup(filePath, operation)`, with the timestamp as
an explicit input.  Returns the backup id (or `none`, the JS `null`, if the
initial `fs.copySync` of a nonexistent source throws and is caught) together
with the updated state.  The index update prepends the new entry to both
lists, truncates the global history to 100, evicts the per-file list beyond
10 entries deleting the evicted blobs, and saves the index. -/
def createBackup (digest : String → String) (s : Sys)
    (filePath operation timestamp : String) : Option String × Sys :=
  let absolutePath := resolvePath filePath
  let backupId := backupIdOf digest absolutePath timestamp
  match s.fs absolutePath with
  | none => (none, s)
  | some content =>
    let blobs₁ : String → Option String :=
      fun k => if k = backupId then some content else s.blobs k
    let fileList : List FileEntry :=
      ⟨backupId, timestamp, operation⟩ :: s.index.files absolutePath
    let history₁ : List HistEntry :=
      let h := HistEntry.mk backupId absolutePath timestamp operation :: s.index.history
      if 100 < h.length then h.take 100 else h
    let blobs₂ := if 10 < fileList.length then removeBlobs blobs₁ (fileList.drop 10) else blobs₁
    let fileList₂ := if 10 < fileList.length then fileList.take 10 else fileList
    (some backupId,
      { fs := s.fs
        blobs := blobs₂
        index :=
          { files := fun q => if q = absolutePath then fileList₂ else s.index.files q
            history := history₁ }
        saves := s.saves + 1 })

/-- The failure conditions of `restoreBackup` (each a distinct
`console.error` + `return false` path of the JS code). -/
inductive RestoreError where
  | noBackupsForFile
  | backupIdNotFound
  | noHistoryFound
  | backupFileMissing
  | targetFileMissing
deriving DecidableEq

/-- The success value of `restoreBackup`: `{ filePath, timestamp, operation }`. -/
structure RestoreInfo where
  filePath : String
  timestamp : String
  operation : String
deriving DecidableEq

/-- The backup entry a restore request resolves to, together with the target
path the blob will be copied over. -/
structure Selected where
  id : String
  timestamp : String
  operation : String
  target : String
deriving DecidableEq

/-- The resolution part of `BackupManager.restoreBackup`: with a file path,
look at its per-file list (empty or absent fails, an explicit id is searched
with `find`, otherwise index 0 is taken); without one, take index 0 of the
global history and derive the target path from that entry. -/
def selectBackup (s : Sys) (filePath backupId : Option String) :
    Except RestoreError Selected :=
  match filePath with
  | some p =>
    let absolutePath := resolvePath p
    match s.index.files absolutePath with
    | [] => .error .noBackupsForFile
    | b :: bs =>
      match backupId with
      | some bid =>
        match (b :: bs).find? (fun e => e.id == bid) with
        | none => .error .backupIdNotFound
        | some e => .ok ⟨e.id, e.timestamp, e.operation, absolutePath⟩
      | none => .ok ⟨b.id, b.timestamp, b.operation, absolutePath⟩
  | none =>
    match s.index.history with
    | [] => .error .noHistoryFound
    | h :: _ => .ok ⟨h.id, h.timestamp, h.operation, h.filePath⟩

/-- `BackupManager.restoreBackup(filePath, backupId)`: resolve the request,
check the blob still exists, check the target file still exists, and copy the
blob over the target.  Every failure path returns the state unchanged. -/
def restoreBackup (s : Sys) (filePath backupId : Option String) :
    Except RestoreError RestoreInfo × Sys :=
  match selectBackup s filePath backupId with
  | .error e => (.error e, s)
  | .ok sel =>
    match s.blobs sel.id with
    | none => (.error .backupFileMissing, s)
    | some content =>
      match s.fs sel.target with
      | none => (.error .targetFileMissing, s)
      | some _ =>
        (.ok ⟨sel.target, sel.timestamp, sel.operation⟩,
         { s with fs := fun q => if q = sel.target then some content else s.fs q })

/-- Overwriting a user file with new content (the primary mutating operation
that happens between backup and restore, `fs.writeFileSync`). -/
def writeFile (s : Sys) (p content : String) : Sys :=
  { s with fs := fun q => if q = p then some content else s.fs q }

/-- One `createBackup` invocation: target path, operation label, timestamp. -/
structure Call where
  path : String
  op : String
  ts : String
deriving DecidableEq

/-- Running a sequence of `createBackup` calls in order. -/
def runCalls (digest : String → String) (s : Sys) : List Call → Sys
  | [] => s
  | c :: rest => runCalls digest (createBackup digest s c.path c.op c.ts).2 rest

/-- The per-file entry a given call produces. -/
def mkFileEntry (digest : String → String) (c : Call) : FileEntry :=
  ⟨backupIdOf digest (resolvePath c.path) c.ts, c.ts, c.op⟩

/-- The global-history entry a given call produces. -/
def mkHistEntry (digest : String → String) (c : Call) : HistEntry :=
  ⟨backupIdOf digest (resolvePath c.path) c.ts, resolvePath c.path, c.ts, c.op⟩

/-- The freshly created index (`{ files: {}, history: [] }`). -/
def initialIndex : Index := ⟨fun _ => [], []⟩

/-- A fresh backup-manager state over a given user filesystem: empty blob
store, empty index. -/
def initialSys (fs : String → Option String) : Sys := ⟨fs, fun _ => none, initialIndex, 0⟩

/-- The global-history entry corresponding to a per-file entry of path `p`. -/
def toHist (p : String) (e : FileEntry) : HistEntry := ⟨e.id, p, e.timestamp, e.operation⟩

/-- The per-file entry corresponding to a global-history entry. -/
def toFile (h : HistEntry) : FileEntry := ⟨h.id, h.timestamp, h.operation⟩

/-! ### Elementary list facts used by the retention proofs -/

theorem take_if_gt {α : Type} (n : Nat) (l : List α) :
    (if n < l.length then l.take n else l) = l.take n := by
  split
  · rfl
  · exact (List.take_of_length_le (Nat.le_of_not_lt (by assumption))).symm

theorem take_append_take {α : Type} (n : Nat) (a b : List α) :
    ((a ++ b.take n).take n) = (a ++ b).take n := by
  rw [List.take_append_eq_append_take, List.take_append_eq_append_take, List.take_take]
  congr 1
  exact congrArg b.take (Nat.min_eq_left (Nat.sub_le n a.length))

/-! ### Blob-store removal facts -/

theorem removeBlobs_ne (blobs : String → Option String) (es : List FileEntry) (k : String)
    (h : ∀ e ∈ es, e.id ≠ k) : removeBlobs blobs es k = blobs k := by
  induction es generalizing blobs with
  | nil => rfl
  | cons e es ih =>
    have hk : k ≠ e.id := fun hk => h e (List.mem_cons_self e es) hk.symm
    simpa [removeBlobs, List.foldl_cons, hk]
      using ih (fun k' => if k' = e.id then none else blobs k')
        (fun e' he' => h e' (List.mem_cons_of_mem e he'))

theorem removeBlobs_mem (blobs : String → Option String) (es : List FileEntry) (k : String)
    (h : k ∈ es.map FileEntry.id) : removeBlobs blobs es k = none := by
  induction es generalizing blobs with
  | nil => simp at h
  | cons e es ih =>
    by_cases hrest : k ∈ es.map FileEntry.id
    · exact ih _ hrest
    · have hk : k = e.id := by
        rcases List.mem_map.mp h with ⟨e', he', hid⟩
        rcases List.mem_cons.mp he' with h1 | h2
        · rw [h1] at hid; exact hid.symm
        · exact absurd (List.mem_map.mpr ⟨e', h2, hid⟩) hrest
      have : removeBlobs (fun k' => if k' = e.id then none else blobs k') es k
          = (fun k' => if k' = e.id then none else blobs k') k :=
        removeBlobs_ne _ es k (fun e' he' hid =>
          hrest (List.mem_map.mpr ⟨e', he', hid⟩))
      simp only [removeBlobs, List.foldl_cons] at *
      rw [this, if_pos hk]

/-! ### Characterization of one successful `createBackup` call -/

theorem createBackup_fst {digest : String → String} {s : Sys} {p op t A : String}
    (hA : s.fs (resolvePath p) = some A) :
    (createBackup digest s p op t).1 = some (backupIdOf digest (resolvePath p) t) := by
  simp [createBackup, hA]

theorem createBackup_fs (digest : String → String) (s : Sys) (p op t : String) :
    (createBackup digest s p op t).2.fs = s.fs := by
  unfold createBackup
  cases h : s.fs (resolvePath p) <;> simp [h]

theorem createBackup_saves {digest : String → String} {s : Sys} {p op t A : String}
    (hA : s.fs (resolvePath p) = some A) :
    (createBackup digest s p op t).2.saves = s.saves + 1 := by
  simp [createBackup, hA]

theorem createBackup_history {digest : String → String} {s : Sys} {p op t A : String}
    (hA : s.fs (resolvePath p) = some A) :
    (createBackup digest s p op t).2.index.history
      = (mkHistEntry digest ⟨p, op, t⟩ :: s.index.history).take 100 := by
  simp only [createBackup, hA, mkHistEntry]
  exact take_if_gt 100 _

theorem createBackup_files {digest : String → String} {s : Sys} {p op t A : String}
    (hA : s.fs (resolvePath p) = some A) (q : String) :
    (createBackup digest s p op t).2.index.files q
      = if q = resolvePath p
        then (mkFileEntry digest ⟨p, op, t⟩ :: s.index.files (resolvePath p)).take 10
        else s.index.files q := by
  simp only [createBackup, hA, mkFileEntry]
  split
  · exact take_if_gt 10 _
  · rfl

theorem createBackup_blobs_old {digest : String → String} {s : Sys} {p op t : String}
    (k : String) (hk : k ≠ backupIdOf digest (resolvePath p) t) :
    (createBackup digest s p op t).2.blobs k = s.blobs k
      ∨ (createBackup digest s p op t).2.blobs k = none := by
  unfold createBackup
  cases h : s.fs (resolvePath p) with
  | none => simp [h]
  | some A =>
    simp only [h]
    split
    · by_cases hmem : k ∈ ((FileEntry.mk (backupIdOf digest (resolvePath p) t) t op
          :: s.index.files (resolvePath p)).drop 10).map FileEntry.id
      · exact .inr (removeBlobs_mem _ _ _ hmem)
      · refine .inl ?_
        rw [removeBlobs_ne _ _ _ (fun e he hid => hmem (List.mem_map.mpr ⟨e, he, hid⟩))]
        simp [hk]
    · simp [hk]

theorem createBackup_blobs_new {digest : String → String} {s : Sys} {p op t A : String}
    (hA : s.fs (resolvePath p) = some A)
    (hfresh : ∀ e ∈ s.index.files (resolvePath p),
      e.id ≠ backupIdOf digest (resolvePath p) t) :
    (createBackup digest s p op t).2.blobs (backupIdOf digest (resolvePath p) t) = some A := by
  simp only [createBackup, hA]
  split
  · rw [removeBlobs_ne]
    · simp
    · intro e he
      have he' : e ∈ (s.index.files (resolvePath p)).drop 9 := by simpa using he
      exact hfresh e (List.drop_subset 9 _ he')
  · simp

theorem createBackup_blobs_keep {digest : String → String} {s : Sys} {p op t A : String}
    (hA : s.fs (resolvePath p) = some A) (k : String)
    (hk : k ≠ backupIdOf digest (resolvePath p) t)
    (hnotevict : ∀ e ∈ (s.index.files (resolvePath p)).drop 9, e.id ≠ k) :
    (createBackup digest s p op t).2.blobs k = s.blobs k := by
  simp only [createBackup, hA]
  split
  · rw [removeBlobs_ne]
    · simp [hk]
    · intro e he
      exact hnotevict e (by simpa using he)
  · simp [hk]

theorem createBackup_blobs_evicted {digest : String → String} {s : Sys} {p op t A : String}
    (hA : s.fs (resolvePath p) = some A) (k : String)
    (hk : k ∈ ((FileEntry.mk (backupIdOf digest (resolvePath p) t) t op
        :: s.index.files (resolvePath p)).drop 10).map FileEntry.id) :
    (createBackup digest s p op t).2.blobs k = none := by
  simp only [createBackup, hA]
  have hgt : 10 < (FileEntry.mk (backupIdOf digest (resolvePath p) t) t op
      :: s.index.files (resolvePath p)).length := by
    by_contra hle
    rw [List.drop_eq_nil_of_le (Nat.le_of_not_lt hle)] at hk
    simp at hk
  rw [if_pos hgt]
  exact removeBlobs_mem _ _ _ hk

/-! ### Characterization of a whole run of `createBackup` calls -/

theorem runCalls_fs (digest : String → String) (s : Sys) (calls : List Call) :
    (runCalls digest s calls).fs = s.fs := by
  induction calls generalizing s with
  | nil => rfl
  | cons c rest ih => rw [runCalls, ih, createBackup_fs]

theorem runCalls_history (digest : String → String) (s : Sys) (calls : List Call)
    (hsucc : ∀ c ∈ calls, (s.fs (resolvePath c.path)).isSome)
    (hlen : s.index.history.length ≤ 100) :
    (runCalls digest s calls).index.history
      = ((calls.map (mkHistEntry digest)).reverse ++ s.index.history).take 100 := by
  induction calls generalizing s with
  | nil => simpa [runCalls] using (List.take_of_length_le hlen).symm
  | cons c rest ih =>
    obtain ⟨A, hA⟩ := Option.isSome_iff_exists.mp (hsucc c (List.mem_cons_self c rest))
    rw [runCalls, ih _ ?hs ?hl]
    case hs =>
      intro c' hc'
      rw [createBackup_fs]
      exact hsucc c' (List.mem_cons_of_mem c hc')
    case hl =>
      rw [createBackup_history hA]
      exact List.length_take_le 100 _
    rw [createBackup_history hA, take_append_take, List.map_cons, List.reverse_cons,
        List.append_assoc, List.singleton_append]

theorem runCalls_files (digest : String → String) (s : Sys) (calls : List Call) (q : String)
    (hsucc : ∀ c ∈ calls, (s.fs (resolvePath c.path)).isSome)
    (hlen : (s.index.files q).length ≤ 10) :
    (runCalls digest s calls).index.files q
      = (((calls.filter (fun c => resolvePath c.path == q)).map (mkFileEntry digest)).reverse
          ++ s.index.files q).take 10 := by
  induction calls generalizing s with
  | nil => simpa [runCalls] using (List.take_of_length_le hlen).symm
  | cons c rest ih =>
    obtain ⟨A, hA⟩ := Option.isSome_iff_exists.mp (hsucc c (List.mem_cons_self c rest))
    rw [runCalls, ih _ ?hs ?hl]
    case hs =>
      intro c' hc'
      rw [createBackup_fs]
      exact hsucc c' (List.mem_cons_of_mem c hc')
    case hl =>
      rw [createBackup_files hA q]
      split
      · exact List.length_take_le 10 _
      · exact hlen
    rw [createBackup_files hA q]
    by_cases hq : q = resolvePath c.path
    · subst hq
      rw [if_pos rfl, List.filter_cons, if_pos (by simp), List.map_cons, List.reverse_cons,
          take_append_take, List.append_assoc, List.singleton_append]
    · rw [if_neg hq, List.filter_cons, if_neg (by simpa using fun h => hq h.symm)]

theorem runCalls_blobs_old (digest : String → String) (s : Sys) (calls : List Call) (k : String)
    (hk : ∀ c ∈ calls, k ≠ backupIdOf digest (resolvePath c.path) c.ts) :
    (runCalls digest s calls).blobs k = s.blobs k
      ∨ (runCalls digest s calls).blobs k = none := by
  induction calls generalizing s with
  | nil => exact .inl rfl
  | cons c rest ih =>
    rw [runCalls]
    rcases ih _ (fun c' h => hk c' (List.mem_cons_of_mem c h)) with h1 | h1
    · rcases createBackup_blobs_old (s := s) k (hk c (List.mem_cons_self c rest)) with h2 | h2
      · exact .inl (h1.trans h2)
      · exact .inr (h1.trans h2)
    · exact .inr h1

theorem runCalls_evicted (digest : String → String) (s : Sys) (p : String) (calls : List Call)
    (A : String) (hA : s.fs (resolvePath p) = some A)
    (hp : ∀ c ∈ calls, c.path = p)
    (hlen : (s.index.files (resolvePath p)).length ≤ 10)
    (hnodup : (((calls.map (mkFileEntry digest)).reverse
        ++ s.index.files (resolvePath p)).map FileEntry.id).Nodup) :
    ∀ e ∈ ((calls.map (mkFileEntry digest)).reverse
        ++ s.index.files (resolvePath p)).drop 10,
      (runCalls digest s calls).blobs e.id = none := by
  induction calls generalizing s with
  | nil =>
    intro e he
    simp only [List.map_nil, List.reverse_nil, List.nil_append] at he
    rw [List.drop_eq_nil_of_le hlen] at he
    exact absurd he (List.not_mem_nil e)
  | cons c rest ih =>
    have hc : c.path = p := hp c (List.mem_cons_self c rest)
    subst hc
    intro e he
    rw [runCalls]
    simp only [List.map_cons, List.reverse_cons, List.append_assoc, List.singleton_append]
      at he hnodup
    set L₀ := s.index.files (resolvePath c.path) with hL₀
    set R := (rest.map (mkFileEntry digest)).reverse with hR
    set X := mkFileEntry digest c :: L₀ with hX
    have hA' : s.fs (resolvePath c.path) = some A := hA
    have hfiles : (createBackup digest s c.path c.op c.ts).2.index.files (resolvePath c.path)
        = X.take 10 := by
      rw [createBackup_files hA' (resolvePath c.path), if_pos rfl]
    have hsplit : R ++ X = (R ++ X.take 10) ++ X.drop 10 := by
      rw [List.append_assoc, List.take_append_drop]
    rw [hsplit, List.drop_append_eq_append_drop] at he
    rcases List.mem_append.mp he with h1 | h1
    · refine ih _ ?_ (fun c' h => hp c' (List.mem_cons_of_mem c h)) ?_ ?_ e ?_
      · rw [createBackup_fs]; exact hA'
      · rw [hfiles]; exact List.length_take_le 10 _
      · rw [hfiles]
        have hsub : List.Sublist (R ++ X.take 10) (R ++ X) :=
          (List.take_sublist 10 X).append_left R
        exact List.Nodup.sublist (hsub.map FileEntry.id) hnodup
      · rw [hfiles]; exact h1
    · have heX : e ∈ X.drop 10 := List.drop_subset _ _ h1
      have hstep : (createBackup digest s c.path c.op c.ts).2.blobs e.id = none :=
        createBackup_blobs_evicted hA' e.id (List.mem_map.mpr ⟨e, heX, rfl⟩)
      have hne : ∀ c' ∈ rest, e.id ≠ backupIdOf digest (resolvePath c'.path) c'.ts := by
        intro c' hc' heq
        have hdis : (R.map FileEntry.id).Disjoint (X.map FileEntry.id) := by
          rw [List.map_append] at hnodup
          exact (List.nodup_append.mp hnodup).2.2
        have heid : e.id ∈ X.map FileEntry.id :=
          List.mem_map.mpr ⟨e, List.drop_subset _ _ heX, rfl⟩
        have hbid : e.id ∈ R.map FileEntry.id := by
          rw [heq]
          refine List.mem_map.mpr ⟨mkFileEntry digest c', ?_, rfl⟩
          rw [hR]
          exact List.mem_reverse.mpr (List.mem_map.mpr ⟨c', hc', rfl⟩)
        exact hdis hbid heid
      rcases runCalls_blobs_old digest _ rest e.id hne with h2 | h2
      · rw [h2, hstep]
      · exact h2

/-! ### The claims about the backup store -/

/-- Claim C1: for a file of content `A`, a successful `createBackup`, then an
overwrite to content `B`, then `restoreBackup` with the file path and no
explicit id succeeds and brings the file back to exactly content `A`.  The
freshness hypothesis says the generated backup id does not collide with an
id already present in the file's backup list, which holds in the real system
because ids embed the strictly increasing creation timestamp. -/
theorem restore_roundtrip (digest : String → String) (s : Sys) (p op t A B : String)
    (hA : s.fs (resolvePath p) = some A)
    (hfresh : ∀ e ∈ s.index.files (resolvePath p),
        e.id ≠ backupIdOf digest (resolvePath p) t) :
    (createBackup digest s p op t).1 = some (backupIdOf digest (resolvePath p) t)
    ∧ (restoreBackup (writeFile (createBackup digest s p op t).2 (resolvePath p) B)
        (some p) none).1 = Except.ok ⟨resolvePath p, t, op⟩
    ∧ (restoreBackup (writeFile (createBackup digest s p op t).2 (resolvePath p) B)
        (some p) none).2.fs (resolvePath p) = some A := by
  set s₂ := writeFile (createBackup digest s p op t).2 (resolvePath p) B with hs₂
  have hfiles : s₂.index.files (resolvePath p)
      = mkFileEntry digest ⟨p, op, t⟩ :: (s.index.files (resolvePath p)).take 9 := by
    show (createBackup digest s p op t).2.index.files (resolvePath p) = _
    rw [createBackup_files hA, if_pos rfl, List.take_succ_cons]
  have hsel : selectBackup s₂ (some p) none
      = .ok ⟨backupIdOf digest (resolvePath p) t, t, op, resolvePath p⟩ := by
    simp [selectBackup, hfiles, mkFileEntry]
  have hblob : s₂.blobs (backupIdOf digest (resolvePath p) t) = some A := by
    show (createBackup digest s p op t).2.blobs _ = some A
    exact createBackup_blobs_new hA hfresh
  have htarget : s₂.fs (resolvePath p) = some B := by
    rw [hs₂]; simp [writeFile]
  refine ⟨createBackup_fst hA, ?_, ?_⟩ <;>
    simp [restoreBackup, hsel, hblob, htarget]

/-- Claim C2: after ten or more successful `createBackup` calls for the same
file, the per-file list holds exactly the ten most recent backups in
most-recent-first order, and the blob of every evicted (older) entry has
been deleted from the backup directory.  The `Nodup` hypothesis says all
backup ids involved are pairwise distinct, which holds in the real system
because ids embed the creation timestamp. -/
theorem perFile_retention (digest : String → String) (s : Sys) (p A : String)
    (calls : List Call)
    (hA : s.fs (resolvePath p) = some A)
    (hp : ∀ c ∈ calls, c.path = p)
    (hN : 10 ≤ calls.length)
    (hlen : (s.index.files (resolvePath p)).length ≤ 10)
    (hnodup : (((calls.map (mkFileEntry digest)).reverse
        ++ s.index.files (resolvePath p)).map FileEntry.id).Nodup) :
    (runCalls digest s calls).index.files (resolvePath p)
        = (calls.reverse.take 10).map (mkFileEntry digest)
    ∧ ((runCalls digest s calls).index.files (resolvePath p)).length = 10
    ∧ ∀ e ∈ ((calls.map (mkFileEntry digest)).reverse
        ++ s.index.files (resolvePath p)).drop 10,
        (runCalls digest s calls).blobs e.id = none := by
  have hsucc : ∀ c ∈ calls, (s.fs (resolvePath c.path)).isSome := by
    intro c hc
    rw [hp c hc, hA]; rfl
  have hfilter : calls.filter (fun c => resolvePath c.path == resolvePath p) = calls :=
    List.filter_eq_self.mpr (fun c hc => by rw [hp c hc]; exact beq_self_eq_true _)
  have h1 : (runCalls digest s calls).index.files (resolvePath p)
      = (calls.reverse.take 10).map (mkFileEntry digest) := by
    rw [runCalls_files digest s calls (resolvePath p) hsucc hlen, hfilter,
        List.take_append_of_le_length (by simpa using hN)]
    simp
  refine ⟨h1, ?_, runCalls_evicted digest s p calls A hA hp hlen hnodup⟩
  rw [h1]
  simp only [List.length_map, List.length_take, List.length_reverse]
  exact Nat.min_eq_left hN

/-- Claim C3: after a hundred or more successful `createBackup` calls across
any files, the global history holds exactly the hundred most recent entries,
most-recent-first; the truncation does not depend on the per-file lists. -/
theorem global_history_cap (digest : String → String) (s : Sys) (calls : List Call)
    (hsucc : ∀ c ∈ calls, (s.fs (resolvePath c.path)).isSome)
    (hN : 100 ≤ calls.length)
    (hlen : s.index.history.length ≤ 100) :
    (runCalls digest s calls).index.history
        = (calls.reverse.take 100).map (mkHistEntry digest)
    ∧ ((runCalls digest s calls).index.history).length = 100 := by
  have h1 : (runCalls digest s calls).index.history
      = (calls.reverse.take 100).map (mkHistEntry digest) := by
    rw [runCalls_history digest s calls hsucc hlen,
        List.take_append_of_le_length (by simpa using hN)]
    simp
  refine ⟨h1, ?_⟩
  rw [h1]
  simp only [List.length_map, List.length_take, List.length_reverse]
  exact Nat.min_eq_left hN

/-! ### Cross-list consistency (claim C4) -/

/-- All global-history entries a run of calls would create, most-recent-first,
before the 100-entry cap is applied. -/
def fullHistory (digest : String → String) (calls : List Call) : List HistEntry :=
  (calls.map (mkHistEntry digest)).reverse

/-- All per-file entries a run of calls would create for path `p`,
most-recent-first, before the 10-entry eviction is applied. -/
def fullFileList (digest : String → String) (p : String) (calls : List Call) :
    List FileEntry :=
  ((calls.filter (fun c => resolvePath c.path == p)).map (mkFileEntry digest)).reverse

/-- A filesystem holding the two files used by the concrete divergence runs. -/
def fsFG : String → Option String :=
  fun q => if q = "f" then some "A" else if q = "g" then some "B" else none

/-- One hundred `createBackup` calls against file `g` with distinct timestamps. -/
def callsG100 : List Call := (List.range 100).map (fun i => ⟨"g", "op", toString i⟩)

/-- The state after one backup of `f` followed by one hundred backups of `g`:
the `f` entry is still in its per-file list but has been pushed out of the
global history. -/
def sysFG : Sys := runCalls id (initialSys fsFG) (⟨"f", "op", "t"⟩ :: callsG100)

/-- Eleven `createBackup` calls against file `f` with distinct timestamps. -/
def callsF11 : List Call := (List.range 11).map (fun i => ⟨"f", "op", toString i⟩)

/-- The state after eleven backups of `f`: the oldest entry has been evicted
from the per-file list but is still in the global history. -/
def sysF11 : Sys := runCalls id (initialSys fsFG) callsF11

/-- The backup entry of file `f` in the `sysFG` run. -/
def entryFOnly : FileEntry := mkFileEntry id ⟨"f", "op", "t"⟩

/-- The oldest history entry of the `sysF11` run. -/
def entryHOnly : HistEntry := mkHistEntry id ⟨"f", "op", "0"⟩

set_option maxRecDepth 10000

/-- Claim C4: in every index state reachable from the empty index by
`createBackup` calls, each per-file entry also appears in the global history
unless it fell past the 100-entry cap, and each history entry also appears in
its file's list unless it fell past the 10-entry per-file cap; the two
evictions are independent, witnessed by a run whose `f` entry is in `files`
but not in `history` and a run whose oldest entry is in `history` but not in
`files`. -/
theorem files_history_consistency (digest : String → String)
    (fs0 : String → Option String) (calls : List Call)
    (hsucc : ∀ c ∈ calls, (fs0 (resolvePath c.path)).isSome) :
    (∀ q, ∀ e ∈ (runCalls digest (initialSys fs0) calls).index.files q,
        toHist q e ∈ (runCalls digest (initialSys fs0) calls).index.history
        ∨ toHist q e ∈ (fullHistory digest calls).drop 100)
    ∧ (∀ h ∈ (runCalls digest (initialSys fs0) calls).index.history,
        toFile h ∈ (runCalls digest (initialSys fs0) calls).index.files h.filePath
        ∨ toFile h ∈ (fullFileList digest h.filePath calls).drop 10)
    ∧ (entryFOnly ∈ sysFG.index.files "f"
        ∧ toHist "f" entryFOnly ∉ sysFG.index.history)
    ∧ (entryHOnly ∈ sysF11.index.history
        ∧ toFile entryHOnly ∉ sysF11.index.files "f") := by
  have hhist : (runCalls digest (initialSys fs0) calls).index.history
      = (fullHistory digest calls).take 100 := by
    rw [runCalls_history digest _ calls hsucc (by simp [initialSys, initialIndex])]
    simp [fullHistory, initialSys, initialIndex]
  have hfiles : ∀ q, (runCalls digest (initialSys fs0) calls).index.files q
      = (fullFileList digest q calls).take 10 := by
    intro q
    rw [runCalls_files digest _ calls q hsucc (by simp [initialSys, initialIndex])]
    simp [fullFileList, initialSys, initialIndex]
  refine ⟨?_, ?_, ⟨by decide, by decide⟩, ⟨by decide, by decide⟩⟩
  · intro q e he
    rw [hfiles q] at he
    have he' : e ∈ fullFileList digest q calls := List.take_subset _ _ he
    rw [fullFileList, List.mem_reverse] at he'
    obtain ⟨c, hc, hce⟩ := List.mem_map.mp he'
    have hcq : resolvePath c.path = q := by simpa using (List.mem_filter.mp hc).2
    have hth : toHist q e = mkHistEntry digest c := by
      subst hce
      rw [← hcq]
      rfl
    have hmem : toHist q e ∈ fullHistory digest calls := by
      rw [hth, fullHistory, List.mem_reverse]
      exact List.mem_map.mpr ⟨c, (List.mem_filter.mp hc).1, rfl⟩
    rw [hhist]
    rw [← List.take_append_drop 100 (fullHistory digest calls)] at hmem
    exact List.mem_append.mp hmem
  · intro h hh
    rw [hhist] at hh
    have hh' : h ∈ fullHistory digest calls := List.take_subset _ _ hh
    rw [fullHistory, List.mem_reverse] at hh'
    obtain ⟨c, hc, hch⟩ := List.mem_map.mp hh'
    subst hch
    have hmemf : toFile (mkHistEntry digest c)
        ∈ fullFileList digest (mkHistEntry digest c).filePath calls := by
      rw [fullFileList, List.mem_reverse]
      exact List.mem_map.mpr ⟨c, List.mem_filter.mpr ⟨hc, beq_self_eq_true _⟩, rfl⟩
    rw [hfiles]
    rw [← List.take_append_drop 10
        (fullFileList digest (mkHistEntry digest c).filePath calls)] at hmemf
    exact List.mem_append.mp hmemf

/-! ### Explicit-id restore (claim C5) -/

theorem selectBackup_find_ok (s : Sys) (p bid : String) (b0 : FileEntry)
    (bs : List FileEntry) (e : FileEntry)
    (hfiles : s.index.files (resolvePath p) = b0 :: bs)
    (hfind : (b0 :: bs).find? (fun x => x.id == bid) = some e) :
    selectBackup s (some p) (some bid)
      = Except.ok ⟨e.id, e.timestamp, e.operation, resolvePath p⟩ := by
  simp only [selectBackup, hfiles, hfind]

theorem selectBackup_find_none (s : Sys) (p bid : String) (b0 : FileEntry)
    (bs : List FileEntry)
    (hfiles : s.index.files (resolvePath p) = b0 :: bs)
    (hfind : (b0 :: bs).find? (fun x => x.id == bid) = none) :
    selectBackup s (some p) (some bid) = Except.error RestoreError.backupIdNotFound := by
  simp only [selectBackup, hfiles, hfind]

theorem backupIdOf_t_inj (digest : String → String) (ap t₁ t₂ : String)
    (h : backupIdOf digest ap t₁ = backupIdOf digest ap t₂) : t₁ = t₂ := by
  unfold backupIdOf at h
  have hd := congrArg String.data h
  simp only [String.data_append] at hd
  exact String.ext (List.append_cancel_left hd)

/-- The state after two consecutive backups of the same file `p`: a backup
`B1` at timestamp `t₁` capturing the file's current content, an overwrite of
the file to content `Y`, and a backup `B2` at timestamp `t₂` capturing `Y`. -/
def twoBackupsState (digest : String → String) (s : Sys) (p op₁ t₁ Y op₂ t₂ : String) : Sys :=
  (createBackup digest
    (writeFile (createBackup digest s p op₁ t₁).2 (resolvePath p) Y) p op₂ t₂).2

/-- Claim C5: with backups `B1` (content `X`, timestamp `t₁`) then `B2`
(content `Y`, timestamp `t₂`) for the same file, `restoreBackup` with `B1`'s
id restores the content captured at `B1`, not `B2`, even though `B2` is more
recent; and a backup id matching no entry of the (nonempty) per-file list
fails with the id-not-found condition. -/
theorem explicit_id_resolution (digest : String → String) (s : Sys)
    (p op₁ t₁ Y op₂ t₂ X : String)
    (hX : s.fs (resolvePath p) = some X)
    (ht : t₁ ≠ t₂)
    (hfresh : ∀ e ∈ s.index.files (resolvePath p),
        e.id ≠ backupIdOf digest (resolvePath p) t₁) :
    (restoreBackup (twoBackupsState digest s p op₁ t₁ Y op₂ t₂) (some p)
        (some (backupIdOf digest (resolvePath p) t₁))).1
      = Except.ok ⟨resolvePath p, t₁, op₁⟩
    ∧ (restoreBackup (twoBackupsState digest s p op₁ t₁ Y op₂ t₂) (some p)
        (some (backupIdOf digest (resolvePath p) t₁))).2.fs (resolvePath p) = some X
    ∧ ∀ b, (∀ e ∈ (twoBackupsState digest s p op₁ t₁ Y op₂ t₂).index.files (resolvePath p),
          e.id ≠ b) →
        (restoreBackup (twoBackupsState digest s p op₁ t₁ Y op₂ t₂) (some p) (some b)).1
          = Except.error RestoreError.backupIdNotFound := by
  set ap := resolvePath p with hap
  set bid₁ := backupIdOf digest ap t₁ with hbid₁
  set bid₂ := backupIdOf digest ap t₂ with hbid₂
  set s₁ := (createBackup digest s p op₁ t₁).2 with hs₁
  set s₂ := writeFile s₁ ap Y with hs₂
  set s₃ := twoBackupsState digest s p op₁ t₁ Y op₂ t₂ with hs₃
  have hne : bid₂ ≠ bid₁ := fun h => ht (backupIdOf_t_inj digest ap t₂ t₁ h).symm
  have hX₂ : s₂.fs ap = some Y := by
    rw [hs₂]; simp [writeFile]
  have hfiles₂ : s₂.index.files ap
      = mkFileEntry digest ⟨p, op₁, t₁⟩ :: (s.index.files ap).take 9 := by
    show s₁.index.files ap = _
    rw [hs₁, createBackup_files hX ap, if_pos rfl, List.take_succ_cons]
  have hfiles₃ : s₃.index.files ap
      = mkFileEntry digest ⟨p, op₂, t₂⟩ :: mkFileEntry digest ⟨p, op₁, t₁⟩
          :: (s.index.files ap).take 8 := by
    rw [hs₃, twoBackupsState]
    rw [createBackup_files hX₂ ap, if_pos rfl, hfiles₂, List.take_succ_cons,
        List.take_succ_cons, List.take_take]
    norm_num
  have hfind : (mkFileEntry digest ⟨p, op₂, t₂⟩ :: mkFileEntry digest ⟨p, op₁, t₁⟩
        :: (s.index.files ap).take 8).find? (fun e => e.id == bid₁)
      = some (mkFileEntry digest ⟨p, op₁, t₁⟩) := by
    rw [List.find?_cons_of_neg _ (by simpa [mkFileEntry] using hne),
        List.find?_cons_of_pos _ (by simp [mkFileEntry])]
  have hsel : selectBackup s₃ (some p) (some bid₁)
      = Except.ok ⟨bid₁, t₁, op₁, ap⟩ :=
    selectBackup_find_ok s₃ p bid₁ _ _ _ hfiles₃ hfind
  have hblob₁ : s₁.blobs bid₁ = some X := createBackup_blobs_new hX hfresh
  have hblob₃ : s₃.blobs bid₁ = some X := by
    rw [hs₃, twoBackupsState]
    rw [createBackup_blobs_keep hX₂ bid₁ (fun h => hne h.symm) ?hev]
    · exact hblob₁
    case hev =>
      intro e he
      rw [hfiles₂] at he
      have he' : e ∈ (s.index.files ap).take 9 := by
        have := List.drop_subset 8 ((s.index.files ap).take 9)
        exact this (by simpa using he)
      exact hfresh e (List.take_subset 9 _ he')
  have htarget : s₃.fs ap = some Y := by
    rw [hs₃, twoBackupsState, createBackup_fs]
    exact hX₂
  refine ⟨?_, ?_, ?_⟩
  · simp [restoreBackup, hsel, hblob₃, htarget]
  · simp [restoreBackup, hsel, hblob₃, htarget]
  · intro b hb
    rw [hfiles₃] at hb
    have hfindnone : (mkFileEntry digest ⟨p, op₂, t₂⟩ :: mkFileEntry digest ⟨p, op₁, t₁⟩
          :: (s.index.files ap).take 8).find? (fun e => e.id == b) = none :=
      List.find?_eq_none.mpr (fun e he => by simpa using hb e he)
    have hsel' : selectBackup s₃ (some p) (some b)
        = Except.error RestoreError.backupIdNotFound :=
      selectBackup_find_none s₃ p b _ _ hfiles₃ hfindnone
    simp [restoreBackup, hsel']

/-- Claim C6: a restore request that resolves to a backup entry (whose blob
still exists, as the blob check precedes the target check in the resolution
algorithm) fails with the target-missing condition when the target file no
longer exists, and performs no filesystem write: the returned state is
exactly the input state. -/
theorem missing_target_guard (s : Sys) (filePath backupId : Option String)
    (sel : Selected)
    (hsel : selectBackup s filePath backupId = Except.ok sel)
    (hblob : (s.blobs sel.id).isSome)
    (htarget : s.fs sel.target = none) :
    restoreBackup s filePath backupId = (Except.error RestoreError.targetFileMissing, s) := by
  obtain ⟨content, hc⟩ := Option.isSome_iff_exists.mp hblob
  simp [restoreBackup, hsel, hc, htarget]

/-- Claim C9: with no file path, `restoreBackup` ignores a supplied backup
id entirely — the call is identical to the call with no id, resolving to
index 0 of the global history — and in particular can never fail with the
id-not-found condition. -/
theorem restore_ignores_id_without_path (s : Sys) (b : String) :
    restoreBackup s none (some b) = restoreBackup s none none
    ∧ (restoreBackup s none (some b)).1 ≠ Except.error RestoreError.backupIdNotFound := by
  refine ⟨rfl, ?_⟩
  unfold restoreBackup selectBackup
  cases hh : s.index.history with
  | nil => simp
  | cons h rest =>
    simp only
    cases hb : s.blobs h.id with
    | none => simp
    | some content =>
      cases hf : s.fs h.filePath with
      | none => simp
      | some _ => simp

/-- Claim C10: `restoreBackup` never mutates the backup index and never
saves it to disk: on every input and every outcome both the `files` mapping
and the `history` list are unchanged and the `saveIndex` counter does not
move. -/
theorem restore_frame (s : Sys) (filePath backupId : Option String) :
    (restoreBackup s filePath backupId).2.index = s.index
    ∧ (restoreBackup s filePath backupId).2.saves = s.saves := by
  unfold restoreBackup
  cases hsel : selectBackup s filePath backupId with
  | error e => exact ⟨rfl, rfl⟩
  | ok sel =>
    simp only
    cases hb : s.blobs sel.id with
    | none => exact ⟨rfl, rfl⟩
    | some content =>
      cases hf : s.fs sel.target with
      | none => exact ⟨rfl, rfl⟩
      | some _ => exact ⟨rfl, rfl⟩

/-! ### The chain executor (`chain` of `src/commands.js`) -/

/-- The fixed list of recognized command names of the chain executor. -/
def knownCommands : List String :=
  ["document", "explain", "refactor", "test", "docstrings", "security"]

/-- The commands allowed to run against a directory target. -/
def directoryCommands : List String := ["document", "security"]

/-- The observable events of one chain run, in order: validation rejections,
the file-target rejection of `document` inside the switch, operation
invocations, and caught per-step operation errors. -/
inductive ChainEvent where
  | unknownCommand (i : Nat) (cmd : String)
  | incompatibleWithDirectory (i : Nat) (cmd : String)
  | documentRequiresDirectory (i : Nat)
  | invoke (i : Nat) (cmd : String)
  | stepError (i : Nat) (cmd : String)
deriving DecidableEq

/-- The outcome of a chain run: the event trace, and whether the loop ran to
the final completion message rather than returning early. -/
structure ChainResult where
  events : List ChainEvent
  completed : Bool
deriving DecidableEq

/-- The step loop of `chain`, from step index `i`.  `raises` tells whether
the operation invoked at a given step throws (the per-step `catch`);
validation failures and the `document`-needs-a-directory rejection happen
without invoking any operation.  Without continue-on-error any failure
returns immediately; with it the loop proceeds to the next token. -/
def chainSteps (continueOnError isDirectory : Bool) (raises : Nat → String → Bool) :
    Nat → List String → ChainResult
  | _, [] => ⟨[], true⟩
  | i, cmd :: rest =>
    if !(knownCommands.contains cmd) then
      if continueOnError then
        let r := chainSteps continueOnError isDirectory raises (i + 1) rest
        ⟨.unknownCommand i cmd :: r.events, r.completed⟩
      else ⟨[.unknownCommand i cmd], false⟩
    else if isDirectory && !(directoryCommands.contains cmd) then
      if continueOnError then
        let r := chainSteps continueOnError isDirectory raises (i + 1) rest
        ⟨.incompatibleWithDirectory i cmd :: r.events, r.completed⟩
      else ⟨[.incompatibleWithDirectory i cmd], false⟩
    else if cmd == "document" && !isDirectory then
      if continueOnError then
        let r := chainSteps continueOnError isDirectory raises (i + 1) rest
        ⟨.documentRequiresDirectory i :: r.events, r.completed⟩
      else ⟨[.documentRequiresDirectory i], false⟩
    else if raises i cmd then
      if continueOnError then
        let r := chainSteps continueOnError isDirectory raises (i + 1) rest
        ⟨.invoke i cmd :: .stepError i cmd :: r.events, r.completed⟩
      else ⟨[.invoke i cmd, .stepError i cmd], false⟩
    else
      let r := chainSteps continueOnError isDirectory raises (i + 1) rest
      ⟨.invoke i cmd :: r.events, r.completed⟩

/-- The whole `chain` invocation: the target must exist on the filesystem
(else the command returns before any step runs); the loop then processes the
step tokens from index 0. -/
def chainRun (targetExists isDirectory continueOnError : Bool)
    (raises : Nat → String → Bool) (steps : List String) : Option ChainResult :=
  if targetExists then some (chainSteps continueOnError isDirectory raises 0 steps) else none

/-- Claim C7: chaining `badcmd, explain` on an existing file target: without
continue-on-error the run aborts at step 1 with an unknown-command failure
and `explain` is never invoked; with continue-on-error step 1 is skipped
(nothing is invoked for it) and step 2 invokes `explain`. -/
theorem chain_abort_vs_continue (raises : Nat → String → Bool) :
    chainRun true false false raises (["badcmd", "explain"])
      = some ⟨[ChainEvent.unknownCommand 0 "badcmd"], false⟩
    ∧ (∀ i c, ChainEvent.invoke i c
        ∉ (chainSteps false false raises 0 (["badcmd", "explain"])).events)
    ∧ ChainEvent.unknownCommand 0 "badcmd"
        ∈ (chainSteps true false raises 0 (["badcmd", "explain"])).events
    ∧ ChainEvent.invoke 1 "explain"
        ∈ (chainSteps true false raises 0 (["badcmd", "explain"])).events
    ∧ ChainEvent.invoke 0 "badcmd"
        ∉ (chainSteps true false raises 0 (["badcmd", "explain"])).events := by
  cases hr : raises 1 "explain" <;>
    simp [chainRun, chainSteps, knownCommands, directoryCommands, hr]

/-- Claim C8: chaining `document` alone against an existing plain-file
target is rejected without invoking the `document` operation under both
policies: the run aborts without continue-on-error and completes with it,
and in neither mode does any invocation event occur. -/
theorem chain_document_needs_directory (raises : Nat → String → Bool) (coe : Bool) :
    (chainSteps coe false raises 0 (["document"])).events
        = [ChainEvent.documentRequiresDirectory 0]
    ∧ (∀ i c, ChainEvent.invoke i c
        ∉ (chainSteps coe false raises 0 (["document"])).events)
    ∧ chainRun true false coe raises (["document"])
        = some ⟨[ChainEvent.documentRequiresDirectory 0], coe⟩ := by
  cases coe <;> simp [chainRun, chainSteps, knownCommands, directoryCommands]

/-! ### Concrete witnesses -/

/-- A filesystem holding one file `f` of content `A`. -/
def fsA : String → Option String := fun q => if q = "f" then some "A" else none

/-- A fresh backup-manager state over `fsA`. -/
def sysA : Sys := initialSys fsA

/-- Ten `createBackup` calls against `f` with distinct timestamps. -/
def callsF10 : List Call := (List.range 10).map (fun i => ⟨"f", "op", toString i⟩)

/-- One hundred `createBackup` calls against `f` with distinct timestamps. -/
def callsF100 : List Call := (List.range 100).map (fun i => ⟨"f", "op", toString i⟩)

/-- A state holding one indexed backup of `f` with its blob present while the
file `f` itself is gone from the filesystem. -/
def sysMissingTarget : Sys :=
  ⟨fun _ => none,
   fun k => if k = "b1" then some "A" else none,
   ⟨fun q => if q = "f" then [⟨"b1", "t", "op"⟩] else [], []⟩,
   0⟩

/-- Witness for claim C1: the round trip at a concrete one-file state. -/
theorem restore_roundtrip_witness :
    (sysA.fs (resolvePath "f") = some "A"
      ∧ ∀ e ∈ sysA.index.files (resolvePath "f"),
          e.id ≠ backupIdOf id (resolvePath "f") "t1")
    ∧ ((createBackup id sysA "f" "op" "t1").1 = some (backupIdOf id (resolvePath "f") "t1")
      ∧ (restoreBackup (writeFile (createBackup id sysA "f" "op" "t1").2 (resolvePath "f") "B")
          (some "f") none).1 = Except.ok ⟨resolvePath "f", "t1", "op"⟩
      ∧ (restoreBackup (writeFile (createBackup id sysA "f" "op" "t1").2 (resolvePath "f") "B")
          (some "f") none).2.fs (resolvePath "f") = some "A") :=
  ⟨⟨by decide, by decide⟩,
    restore_roundtrip id sysA "f" "op" "t1" "A" "B" (by decide) (by decide)⟩

/-- Witness for claim C2: ten concrete backups of one file. -/
theorem perFile_retention_witness :
    (sysA.fs (resolvePath "f") = some "A"
      ∧ (∀ c ∈ callsF10, c.path = "f")
      ∧ 10 ≤ callsF10.length
      ∧ (sysA.index.files (resolvePath "f")).length ≤ 10
      ∧ (((callsF10.map (mkFileEntry id)).reverse
          ++ sysA.index.files (resolvePath "f")).map FileEntry.id).Nodup)
    ∧ ((runCalls id sysA callsF10).index.files (resolvePath "f")
          = (callsF10.reverse.take 10).map (mkFileEntry id)
      ∧ ((runCalls id sysA callsF10).index.files (resolvePath "f")).length = 10
      ∧ ∀ e ∈ ((callsF10.map (mkFileEntry id)).reverse
          ++ sysA.index.files (resolvePath "f")).drop 10,
          (runCalls id sysA callsF10).blobs e.id = none) :=
  ⟨⟨by decide, by decide, by decide, by decide, by decide⟩,
    perFile_retention id sysA "f" "A" callsF10
      (by decide) (by decide) (by decide) (by decide) (by decide)⟩

/-- Witness for claim C3: one hundred concrete backups. -/
theorem global_history_cap_witness :
    ((∀ c ∈ callsF100, (sysA.fs (resolvePath c.path)).isSome)
      ∧ 100 ≤ callsF100.length
      ∧ sysA.index.history.length ≤ 100)
    ∧ ((runCalls id sysA callsF100).index.history
          = (callsF100.reverse.take 100).map (mkHistEntry id)
      ∧ ((runCalls id sysA callsF100).index.history).length = 100) :=
  ⟨⟨by decide, by decide, by decide⟩,
    global_history_cap id sysA callsF100 (by decide) (by decide) (by decide)⟩

/-- Witness for claim C4: the consistency invariant over a concrete
eleven-call run. -/
theorem files_history_consistency_witness :
    (∀ c ∈ callsF11, (fsFG (resolvePath c.path)).isSome)
    ∧ ((∀ q, ∀ e ∈ (runCalls id (initialSys fsFG) callsF11).index.files q,
        toHist q e ∈ (runCalls id (initialSys fsFG) callsF11).index.history
        ∨ toHist q e ∈ (fullHistory id callsF11).drop 100)
      ∧ (∀ h ∈ (runCalls id (initialSys fsFG) callsF11).index.history,
          toFile h ∈ (runCalls id (initialSys fsFG) callsF11).index.files h.filePath
          ∨ toFile h ∈ (fullFileList id h.filePath callsF11).drop 10)
      ∧ (entryFOnly ∈ sysFG.index.files "f"
          ∧ toHist "f" entryFOnly ∉ sysFG.index.history)
      ∧ (entryHOnly ∈ sysF11.index.history
          ∧ toFile entryHOnly ∉ sysF11.index.files "f")) :=
  ⟨by decide, files_history_consistency id fsFG callsF11 (by decide)⟩

/-- Witness for claim C5: two concrete backups of one file restored by the
first backup's id. -/
theorem explicit_id_resolution_witness :
    (sysA.fs (resolvePath "f") = some "A"
      ∧ "t1" ≠ "t2"
      ∧ ∀ e ∈ sysA.index.files (resolvePath "f"),
          e.id ≠ backupIdOf id (resolvePath "f") "t1")
    ∧ ((restoreBackup (twoBackupsState id sysA "f" "x" "t1" "B" "y" "t2") (some "f")
          (some (backupIdOf id (resolvePath "f") "t1"))).1
        = Except.ok ⟨resolvePath "f", "t1", "x"⟩
      ∧ (restoreBackup (twoBackupsState id sysA "f" "x" "t1" "B" "y" "t2") (some "f")
          (some (backupIdOf id (resolvePath "f") "t1"))).2.fs (resolvePath "f") = some "A"
      ∧ ∀ b, (∀ e ∈ (twoBackupsState id sysA "f" "x" "t1" "B" "y" "t2").index.files
            (resolvePath "f"), e.id ≠ b) →
          (restoreBackup (twoBackupsState id sysA "f" "x" "t1" "B" "y" "t2") (some "f")
            (some b)).1 = Except.error RestoreError.backupIdNotFound) :=
  ⟨⟨by decide, by decide, by decide⟩,
    explicit_id_resolution id sysA "f" "x" "t1" "B" "y" "t2" "A"
      (by decide) (by decide) (by decide)⟩

/-- Witness for claim C6: a backup of a since-deleted file. -/
theorem missing_target_guard_witness :
    (selectBackup sysMissingTarget (some "f") none = Except.ok ⟨"b1", "t", "op", "f"⟩
      ∧ (sysMissingTarget.blobs (Selected.mk "b1" "t" "op" "f").id).isSome
      ∧ sysMissingTarget.fs (Selected.mk "b1" "t" "op" "f").target = none)
    ∧ restoreBackup sysMissingTarget (some "f") none
        = (Except.error RestoreError.targetFileMissing, sysMissingTarget) :=
  ⟨⟨rfl, by decide, rfl⟩,
    missing_target_guard sysMissingTarget (some "f") none ⟨"b1", "t", "op", "f"⟩
      rfl (by decide) rfl⟩

end Duq
